import Mathlib

/-!
Shallow embedding of the pcap-file Interface Description Block decoder
(`src/pcapng/blocks/interface_description.rs`) and of the generic TLV option
decoder it instantiates, together with proofs of the specification claims.

Byte buffers are modelled as `List Nat` (each element a byte value `< 256`
where it matters). Fallible Rust functions returning `Result<T, PcapError>`
become Lean functions into `Except PcapError T`. The byte-order type
parameter `B : ByteOrder` of the Rust generics becomes an explicit argument.
-/

namespace PcapFile

/-- Byte order parameter, standing for the `byteorder` crate's `BigEndian` /
`LittleEndian` types that instantiate the Rust `B : ByteOrder` generic. -/
inductive ByteOrder where
  | Big
  | Little
deriving DecidableEq, Repr

/-- Value of a little-endian byte list (first byte is least significant). -/
def leVal : List Nat → Nat
  | [] => 0
  | b :: bs => b + 256 * leVal bs

/-- Value of a byte list read in byte order `B`: big-endian reads the first
byte as most significant, little-endian as least significant. -/
def ByteOrder.val (B : ByteOrder) (bs : List Nat) : Nat :=
  match B with
  | .Big => leVal bs.reverse
  | .Little => leVal bs

/-- Error type of the decoder. Modelled from the spec: `PcapError` lives in
the crate's `errors.rs`, which is not part of the sources; spec §7 gives the
taxonomy `IncompleteBuffer(needed_bytes)` and `InvalidField(description)`,
with lower-level read failures (truncated fixed-width integer, invalid
UTF-8) folded into `InvalidField`. -/
inductive PcapError where
  | IncompleteBuffer (needed : Nat)
  | InvalidField (description : String)
deriving DecidableEq, Repr

/-- Reads `k` bytes from the front of `s` in byte order `B`, returning the
value and the advanced slice. Embeds the `byteorder` crate's
`ReadBytesExt::read_uN::<B>` on a `&[u8]`; a short read is the folded
truncated-integer failure (spec §7). -/
def readExact (B : ByteOrder) (k : Nat) (s : List Nat) :
    Except PcapError (Nat × List Nat) :=
  if s.length < k then .error (.InvalidField "truncated integer read")
  else .ok (B.val (s.take k), s.drop k)

/-- Embeds `slice.read_u16::<B>()`. -/
def read_u16 (B : ByteOrder) (s : List Nat) : Except PcapError (Nat × List Nat) :=
  readExact B 2 s

/-- Embeds `slice.read_u32::<B>()`. -/
def read_u32 (B : ByteOrder) (s : List Nat) : Except PcapError (Nat × List Nat) :=
  readExact B 4 s

/-- Embeds `slice.read_u64::<B>()`. -/
def read_u64 (B : ByteOrder) (s : List Nat) : Except PcapError (Nat × List Nat) :=
  readExact B 8 s

/-- Embeds `slice.read_u8()` (byte-order independent). -/
def read_u8 (s : List Nat) : Except PcapError (Nat × List Nat) :=
  match s with
  | [] => .error (.InvalidField "truncated integer read")
  | b :: rest => .ok (b, rest)

/-- Whether `c` is a valid UTF-8 continuation byte (`0x80..0xBF`). -/
def utf8Cont (c : Nat) : Bool :=
  0x80 ≤ c && c ≤ 0xBF

/-- Admissible first continuation byte after a 3-byte leader `b`
(the restricted ranges of `0xE0` and `0xED`). -/
def utf8Cont3 (b c : Nat) : Bool :=
  if b = 0xE0 then 0xA0 ≤ c && c ≤ 0xBF
  else if b = 0xED then 0x80 ≤ c && c ≤ 0x9F
  else utf8Cont c

/-- Admissible first continuation byte after a 4-byte leader `b`
(the restricted ranges of `0xF0` and `0xF4`). -/
def utf8Cont4 (b c : Nat) : Bool :=
  if b = 0xF0 then 0x90 ≤ c && c ≤ 0xBF
  else if b = 0xF4 then 0x80 ≤ c && c ≤ 0x8F
  else utf8Cont c

/-- UTF-8 validity of a byte sequence, embedding the check performed by
`std::str::from_utf8` (well-formed sequences only: no overlongs, no
surrogates, no code points above `U+10FFFF`). -/
def validUtf8 : List Nat → Bool
  | [] => true
  | b :: rest =>
    if b ≤ 0x7F then validUtf8 rest
    else if b ≤ 0xC1 then false
    else if b ≤ 0xDF then
      match rest with
      | c1 :: rest2 => utf8Cont c1 && validUtf8 rest2
      | [] => false
    else if b ≤ 0xEF then
      match rest with
      | c1 :: c2 :: rest2 => utf8Cont3 b c1 && utf8Cont c2 && validUtf8 rest2
      | _ => false
    else if b ≤ 0xF4 then
      match rest with
      | c1 :: c2 :: c3 :: rest2 =>
          utf8Cont4 b c1 && utf8Cont c2 && utf8Cont c3 && validUtf8 rest2
      | _ => false
    else false

/-- Semantic link-layer type. Modelled from the spec: the `DataLink` enum and
its `From<u32>` registry mapping live outside the provided sources; spec
§4.2 names only code `0x0001` ("Ethernet" in the registry) and requires every
unregistered numeric value to round-trip as an `Unknown(N)` variant. -/
inductive DataLink where
  | ETHERNET
  | Unknown (n : Nat)
deriving DecidableEq, Repr

/-- Modelled from the spec: the registry mapping `u32 -> DataLink`
(`linktype.into()` in the source); code 1 is Ethernet, every code without a
registry entry maps to `Unknown(n)` carrying the original number. -/
def DataLink.fromU32 (n : Nat) : DataLink :=
  if n = 1 then .ETHERNET else .Unknown n

/-- Numeric code of a semantic link-layer type (inverse of the registry
mapping on canonical values). -/
def DataLink.toU32 : DataLink → Nat
  | .ETHERNET => 1
  | .Unknown n => n

/-- Embeds the `InterfaceDescriptionOption<'a>` enum of the source. Borrowed
`&'a str` and `&'a [u8]` payloads are both lists of bytes (a decoded string
borrows exactly the payload bytes, which have been UTF-8 validated). -/
inductive InterfaceDescriptionOption where
  | Comment (s : List Nat)
  | IfName (s : List Nat)
  | IfDescription (s : List Nat)
  | IfIpv4Addr (b : List Nat)
  | IfIpv6Addr (b : List Nat)
  | IfMacAddr (b : List Nat)
  | IfEulAddr (n : Nat)
  | IfSpeed (n : Nat)
  | IfTsResol (n : Nat)
  | IfTzone (n : Nat)
  | IfFilter (b : List Nat)
  | IfOs (s : List Nat)
  | IfFcsLen (n : Nat)
  | IfTsOffset (n : Nat)
  | IfHardware (s : List Nat)
deriving DecidableEq, Repr

/-- Generic TLV option scanner. Modelled from the spec: `opts_from_slice`
lives in `pcapng/blocks/mod.rs`, which is not part of the sources; spec §4.1
gives its algorithm: stop on empty slice or on a type-0 terminator record
(consuming the terminator's 4-byte header); a record header shorter than 4
bytes or a payload shorter than its declared length is an incomplete-buffer
failure reporting the deficit; after the payload, padding up to the next
4-byte boundary is skipped, not validated; interpreter errors propagate
verbatim; results are collected in wire order. -/
def opts_from_slice {O : Type} (B : ByteOrder)
    (f : List Nat → Nat → Nat → Except PcapError O)
    (slice : List Nat) : Except PcapError (List O × List Nat) :=
  if _h0 : slice.isEmpty then .ok ([], slice)
  else if h4 : slice.length < 4 then .error (.IncompleteBuffer (4 - slice.length))
  else
    let type_ := B.val (slice.take 2)
    let len := B.val ((slice.drop 2).take 2)
    let rest := slice.drop 4
    if type_ = 0 then .ok ([], rest)
    else if rest.length < len then .error (.IncompleteBuffer (len - rest.length))
    else
      match f (rest.take len) type_ len with
      | .error e => .error e
      | .ok o =>
        match opts_from_slice B f (rest.drop (len + (4 - len % 4) % 4)) with
        | .error e => .error e
        | .ok (os, rem) => .ok (o :: os, rem)
termination_by slice.length
decreasing_by
  simp only [List.length_drop]
  omega

/-- Embeds the interpreter closure passed to `opts_from_slice` in
`InterfaceDescriptionOption::from_slice` (source lines 105-129): dispatch on
the option type code, with codes 1-15 recognized and anything else the
`InvalidField` failure; string codes UTF-8 validate the payload, raw codes
borrow it whole, integer codes read a fixed-width value from its front. -/
def interpretIDOption (B : ByteOrder) (slice : List Nat) (type_ : Nat)
    (_len : Nat) : Except PcapError InterfaceDescriptionOption :=
  match type_ with
  | 1 => if validUtf8 slice then .ok (.Comment slice)
         else .error (.InvalidField "invalid UTF-8 string")
  | 2 => if validUtf8 slice then .ok (.IfName slice)
         else .error (.InvalidField "invalid UTF-8 string")
  | 3 => if validUtf8 slice then .ok (.IfDescription slice)
         else .error (.InvalidField "invalid UTF-8 string")
  | 4 => .ok (.IfIpv4Addr slice)
  | 5 => .ok (.IfIpv6Addr slice)
  | 6 => .ok (.IfMacAddr slice)
  | 7 => match read_u64 B slice with
         | .ok (n, _) => .ok (.IfEulAddr n)
         | .error e => .error e
  | 8 => match read_u64 B slice with
         | .ok (n, _) => .ok (.IfSpeed n)
         | .error e => .error e
  | 9 => match read_u8 slice with
         | .ok (n, _) => .ok (.IfTsResol n)
         | .error e => .error e
  | 10 => match read_u32 B slice with
          | .ok (n, _) => .ok (.IfTzone n)
          | .error e => .error e
  | 11 => .ok (.IfFilter slice)
  | 12 => if validUtf8 slice then .ok (.IfOs slice)
          else .error (.InvalidField "invalid UTF-8 string")
  | 13 => match read_u8 slice with
          | .ok (n, _) => .ok (.IfFcsLen n)
          | .error e => .error e
  | 14 => match read_u64 B slice with
          | .ok (n, _) => .ok (.IfTsOffset n)
          | .error e => .error e
  | 15 => if validUtf8 slice then .ok (.IfHardware slice)
          else .error (.InvalidField "invalid UTF-8 string")
  | _ => .error (.InvalidField "InterfaceDescriptionOption type invalid")

/-- Embeds `InterfaceDescriptionOption::from_slice` (source lines 103-130):
the generic scanner instantiated with the interface-description interpreter. -/
def InterfaceDescriptionOption.from_slice (B : ByteOrder) (slice : List Nat) :
    Except PcapError (List InterfaceDescriptionOption × List Nat) :=
  opts_from_slice B (interpretIDOption B) slice

/-- Embeds the `InterfaceDescriptionBlock<'a>` struct of the source. -/
structure InterfaceDescriptionBlock where
  linktype : DataLink
  snaplen : Nat
  options : List InterfaceDescriptionOption
deriving DecidableEq, Repr

/-- Embeds `InterfaceDescriptionBlock::from_slice` (source lines 29-47):
require 6 bytes, else `IncompleteBuffer(6 - len)`; read the u16 link type,
map it through the registry; read the u32 snaplen; decode the options; return
the block with the remaining slice. -/
def InterfaceDescriptionBlock.from_slice (B : ByteOrder) (slice : List Nat) :
    Except PcapError (InterfaceDescriptionBlock × List Nat) :=
  if slice.length < 6 then .error (.IncompleteBuffer (6 - slice.length))
  else
    match read_u16 B slice with
    | .error e => .error e
    | .ok (lt, slice1) =>
      match read_u32 B slice1 with
      | .error e => .error e
      | .ok (snaplen, slice2) =>
        match InterfaceDescriptionOption.from_slice B slice2 with
        | .error e => .error e
        | .ok (options, slice3) =>
          .ok ({ linktype := DataLink.fromU32 lt, snaplen, options }, slice3)

/-! ### Canonical wire encoding

Modelled from the spec: write support is explicitly a non-goal of the code
(spec §1), so the round-trip property of spec §8 is stated against the
canonical encoder implied by the wire format of spec §4.1: each option is a
2-byte type code, a 2-byte payload length, the payload, and zero padding to
the next 4-byte boundary, the list terminated by an all-zero 4-byte
end-of-options record; a block is the 2-byte link type, the 4-byte snaplen
and the encoded option list. -/

/-- Little-endian byte decomposition: `k` bytes of `n`, least significant
first. -/
def leBytes : Nat → Nat → List Nat
  | 0, _ => []
  | k + 1, n => n % 256 :: leBytes k (n / 256)

/-- Encoding of `n` as `k` bytes in byte order `B`. -/
def encodeU (B : ByteOrder) (k n : Nat) : List Nat :=
  match B with
  | .Little => leBytes k n
  | .Big => (leBytes k n).reverse

/-- Number of padding bytes after a payload of length `n` (to the next
4-byte boundary). -/
def padLen (n : Nat) : Nat := (4 - n % 4) % 4

/-- Wire type code of an option variant (source lines 109-123). -/
def optCode : InterfaceDescriptionOption → Nat
  | .Comment _ => 1
  | .IfName _ => 2
  | .IfDescription _ => 3
  | .IfIpv4Addr _ => 4
  | .IfIpv6Addr _ => 5
  | .IfMacAddr _ => 6
  | .IfEulAddr _ => 7
  | .IfSpeed _ => 8
  | .IfTsResol _ => 9
  | .IfTzone _ => 10
  | .IfFilter _ => 11
  | .IfOs _ => 12
  | .IfFcsLen _ => 13
  | .IfTsOffset _ => 14
  | .IfHardware _ => 15

/-- Canonical payload bytes of an option value in byte order `B`. -/
def optPayload (B : ByteOrder) : InterfaceDescriptionOption → List Nat
  | .Comment s => s
  | .IfName s => s
  | .IfDescription s => s
  | .IfIpv4Addr b => b
  | .IfIpv6Addr b => b
  | .IfMacAddr b => b
  | .IfEulAddr n => encodeU B 8 n
  | .IfSpeed n => encodeU B 8 n
  | .IfTsResol n => encodeU B 1 n
  | .IfTzone n => encodeU B 4 n
  | .IfFilter b => b
  | .IfOs s => s
  | .IfFcsLen n => encodeU B 1 n
  | .IfTsOffset n => encodeU B 8 n
  | .IfHardware s => s

/-- Well-formedness of an option value: exactly the values the decoder can
produce from a buffer of genuine bytes — strings are valid UTF-8, borrowed
payloads fit a 16-bit declared length, integers fit their wire width. -/
def WFopt : InterfaceDescriptionOption → Prop
  | .Comment s => validUtf8 s = true ∧ s.length < 256 ^ 2
  | .IfName s => validUtf8 s = true ∧ s.length < 256 ^ 2
  | .IfDescription s => validUtf8 s = true ∧ s.length < 256 ^ 2
  | .IfIpv4Addr b => b.length < 256 ^ 2
  | .IfIpv6Addr b => b.length < 256 ^ 2
  | .IfMacAddr b => b.length < 256 ^ 2
  | .IfEulAddr n => n < 256 ^ 8
  | .IfSpeed n => n < 256 ^ 8
  | .IfTsResol n => n < 256 ^ 1
  | .IfTzone n => n < 256 ^ 4
  | .IfFilter b => b.length < 256 ^ 2
  | .IfOs s => validUtf8 s = true ∧ s.length < 256 ^ 2
  | .IfFcsLen n => n < 256 ^ 1
  | .IfTsOffset n => n < 256 ^ 8
  | .IfHardware s => validUtf8 s = true ∧ s.length < 256 ^ 2

/-- Canonical encoding of one option record: type, length, payload, zero
padding to the next 4-byte boundary. -/
def encodeOption (B : ByteOrder) (o : InterfaceDescriptionOption) : List Nat :=
  encodeU B 2 (optCode o) ++ encodeU B 2 (optPayload B o).length ++ optPayload B o
    ++ List.replicate (padLen (optPayload B o).length) 0

/-- Canonical encoding of an option list, terminated by the all-zero
end-of-options record. -/
def encodeOptions (B : ByteOrder) : List InterfaceDescriptionOption → List Nat
  | [] => [0, 0, 0, 0]
  | o :: os => encodeOption B o ++ encodeOptions B os

/-- Well-formedness of a block value: the link type is canonical for the
registry and fits 16 bits, the snaplen fits 32 bits, the options are
well-formed. -/
def WFblock (blk : InterfaceDescriptionBlock) : Prop :=
  blk.linktype.toU32 < 256 ^ 2 ∧
  DataLink.fromU32 blk.linktype.toU32 = blk.linktype ∧
  blk.snaplen < 256 ^ 4 ∧
  ∀ o ∈ blk.options, WFopt o

/-- Canonical encoding of a block: 2-byte link type, 4-byte snaplen, encoded
options. -/
def encodeBlock (B : ByteOrder) (blk : InterfaceDescriptionBlock) : List Nat :=
  encodeU B 2 blk.linktype.toU32 ++ encodeU B 4 blk.snaplen
    ++ encodeOptions B blk.options

/-! ### Arithmetic facts about byte values -/

theorem leVal_lt_of_bytes (l : List Nat) (h : ∀ b ∈ l, b < 256) :
    leVal l < 256 ^ l.length := by
  induction l with
  | nil => simp [leVal]
  | cons b bs ih =>
    have hb : b < 256 := h b (by simp)
    have hbs := ih (fun x hx => h x (by simp [hx]))
    have h2 : 256 * (leVal bs + 1) ≤ 256 * 256 ^ bs.length :=
      Nat.mul_le_mul_left _ hbs
    simp only [leVal, List.length_cons, pow_succ]
    omega

theorem val_lt_of_bytes (B : ByteOrder) (l : List Nat) (h : ∀ b ∈ l, b < 256) :
    B.val l < 256 ^ l.length := by
  cases B with
  | Big =>
    have := leVal_lt_of_bytes l.reverse (fun b hb => h b (List.mem_reverse.mp hb))
    simpa [ByteOrder.val] using this
  | Little => exact leVal_lt_of_bytes l h

theorem length_leBytes (k n : Nat) : (leBytes k n).length = k := by
  induction k generalizing n with
  | zero => simp [leBytes]
  | succ k ih => simp [leBytes, ih]

theorem mem_leBytes_lt (k n : Nat) : ∀ b ∈ leBytes k n, b < 256 := by
  induction k generalizing n with
  | zero => simp [leBytes]
  | succ k ih =>
    intro b hb
    simp only [leBytes, List.mem_cons] at hb
    rcases hb with h | h
    · omega
    · exact ih (n / 256) b h

theorem leVal_leBytes (k n : Nat) (h : n < 256 ^ k) : leVal (leBytes k n) = n := by
  induction k generalizing n with
  | zero =>
    simp only [pow_zero, Nat.lt_one_iff] at h
    simp [leBytes, leVal, h]
  | succ k ih =>
    have hdiv : n / 256 < 256 ^ k := by
      rw [Nat.div_lt_iff_lt_mul (by norm_num)]
      calc n < 256 ^ (k + 1) := h
        _ = 256 ^ k * 256 := pow_succ 256 k
    simp only [leBytes, leVal, ih (n / 256) hdiv]
    omega

theorem length_encodeU (B : ByteOrder) (k n : Nat) : (encodeU B k n).length = k := by
  cases B <;> simp [encodeU, length_leBytes]

theorem val_encodeU (B : ByteOrder) (k n : Nat) (h : n < 256 ^ k) :
    B.val (encodeU B k n) = n := by
  cases B with
  | Big => simp [encodeU, ByteOrder.val, leVal_leBytes k n h]
  | Little => simp [encodeU, ByteOrder.val, leVal_leBytes k n h]

theorem mem_encodeU_lt (B : ByteOrder) (k n : Nat) : ∀ b ∈ encodeU B k n, b < 256 := by
  cases B with
  | Big =>
    intro b hb
    exact mem_leBytes_lt k n b (List.mem_reverse.mp (by simpa [encodeU] using hb))
  | Little => exact mem_leBytes_lt k n

/-! ### Decoding steps of the option scanner on framed records -/

theorem opts_from_slice_terminator {O : Type} (B : ByteOrder)
    (f : List Nat → Nat → Nat → Except PcapError O) (rest : List Nat) :
    opts_from_slice B f (0 :: 0 :: 0 :: 0 :: rest) = .ok ([], rest) := by
  unfold opts_from_slice
  cases B <;> simp [ByteOrder.val, leVal]

theorem opts_from_slice_step {O : Type} (B : ByteOrder)
    (f : List Nat → Nat → Nat → Except PcapError O)
    (t len : Nat) (p pad rest : List Nat) (o : O)
    (ht0 : t ≠ 0) (ht : t < 256 ^ 2) (hlenp : p.length = len) (hl : len < 256 ^ 2)
    (hpad : pad.length = padLen len)
    (hf : f p t len = .ok o) :
    opts_from_slice B f (encodeU B 2 t ++ encodeU B 2 len ++ p ++ pad ++ rest) =
      match opts_from_slice B f rest with
      | .error e => .error e
      | .ok (os, rem) => .ok (o :: os, rem) := by
  have hlt : (encodeU B 2 t).length = 2 := length_encodeU B 2 t
  have hll : (encodeU B 2 len).length = 2 := length_encodeU B 2 len
  set s := encodeU B 2 t ++ encodeU B 2 len ++ p ++ pad ++ rest with hs
  have hslen : s.length = 4 + len + pad.length + rest.length := by
    simp [hs, hlt, hll, hlenp]
    omega
  have htake2 : s.take 2 = encodeU B 2 t := by
    rw [hs, List.append_assoc, List.append_assoc, List.append_assoc]
    exact List.take_left' hlt
  have hdrop2 : s.drop 2 = encodeU B 2 len ++ (p ++ (pad ++ rest)) := by
    rw [hs, List.append_assoc, List.append_assoc, List.append_assoc]
    rw [List.drop_left' hlt]
  have htake22 : (s.drop 2).take 2 = encodeU B 2 len := by
    rw [hdrop2]; exact List.take_left' hll
  have hdrop4 : s.drop 4 = p ++ (pad ++ rest) := by
    have h22 : s.drop 4 = (s.drop 2).drop 2 := by rw [List.drop_drop]
    rw [h22, hdrop2, List.drop_left' hll]
  have hne : s.isEmpty = false := by
    cases hsc : s with
    | nil =>
      rw [hsc] at hslen
      simp only [List.length_nil] at hslen
      omega
    | cons a l => rfl
  have h4 : ¬ s.length < 4 := by omega
  have hrest : ¬ (p ++ (pad ++ rest)).length < len := by
    simp [hlenp]
  have htakelen : (p ++ (pad ++ rest)).take len = p := List.take_left' hlenp
  have hdroppad : (p ++ (pad ++ rest)).drop (len + (4 - len % 4) % 4) = rest := by
    rw [← List.append_assoc]
    refine List.drop_left' ?_
    simp [hlenp, hpad, padLen]
  obtain ⟨r, hrem⟩ : ∃ r, opts_from_slice B f rest = r := ⟨_, rfl⟩
  rw [hrem]
  unfold opts_from_slice
  rw [htake2, htake22, hdrop4]
  rw [val_encodeU B 2 t ht, val_encodeU B 2 len hl]
  rw [hne]
  simp only [Bool.false_eq_true, dite_false]
  rw [dif_neg h4, if_neg ht0, if_neg hrest, htakelen, hf, hdroppad, hrem]

/-! ### Round-trip of the canonical encoder through the decoder -/

theorem read_u64_encodeU (B : ByteOrder) (n : Nat) (h : n < 256 ^ 8) :
    read_u64 B (encodeU B 8 n) = .ok (n, []) := by
  have hl : (encodeU B 8 n).length = 8 := length_encodeU B 8 n
  rw [read_u64, readExact, if_neg (by omega)]
  rw [List.take_of_length_le (by omega), List.drop_of_length_le (by omega)]
  rw [val_encodeU B 8 n h]

theorem read_u32_encodeU (B : ByteOrder) (n : Nat) (h : n < 256 ^ 4) :
    read_u32 B (encodeU B 4 n) = .ok (n, []) := by
  have hl : (encodeU B 4 n).length = 4 := length_encodeU B 4 n
  rw [read_u32, readExact, if_neg (by omega)]
  rw [List.take_of_length_le (by omega), List.drop_of_length_le (by omega)]
  rw [val_encodeU B 4 n h]

theorem read_u8_encodeU (B : ByteOrder) (n : Nat) (h : n < 256 ^ 1) :
    read_u8 (encodeU B 1 n) = .ok (n, []) := by
  cases B <;>
    simp [encodeU, leBytes, read_u8, Nat.mod_eq_of_lt (by omega : n < 256)]

theorem interpret_optPayload (B : ByteOrder) (o : InterfaceDescriptionOption)
    (L : Nat) (h : WFopt o) :
    interpretIDOption B (optPayload B o) (optCode o) L = .ok o := by
  cases o <;>
    simp_all [WFopt, optPayload, optCode, interpretIDOption,
      read_u64_encodeU, read_u32_encodeU, read_u8_encodeU]

theorem optPayload_length_lt (B : ByteOrder) (o : InterfaceDescriptionOption)
    (h : WFopt o) : (optPayload B o).length < 256 ^ 2 := by
  cases o <;> simp_all [WFopt, optPayload, length_encodeU]

theorem optCode_ne_zero (o : InterfaceDescriptionOption) : optCode o ≠ 0 := by
  cases o <;> simp [optCode]

theorem optCode_lt (o : InterfaceDescriptionOption) : optCode o < 256 ^ 2 := by
  cases o <;> simp [optCode]

theorem decode_encodeOptions (B : ByteOrder) (os : List InterfaceDescriptionOption)
    (h : ∀ o ∈ os, WFopt o) (rest : List Nat) :
    opts_from_slice B (interpretIDOption B) (encodeOptions B os ++ rest) =
      .ok (os, rest) := by
  induction os with
  | nil => simpa [encodeOptions] using opts_from_slice_terminator B (interpretIDOption B) rest
  | cons o os ih =>
    have hwf := h o (by simp)
    rw [encodeOptions, List.append_assoc, encodeOption]
    rw [opts_from_slice_step B (interpretIDOption B) (optCode o)
      (optPayload B o).length (optPayload B o)
      (List.replicate (padLen (optPayload B o).length) 0)
      (encodeOptions B os ++ rest) o
      (optCode_ne_zero o) (optCode_lt o) rfl (optPayload_length_lt B o hwf)
      (by simp) (interpret_optPayload B o (optPayload B o).length hwf)]
    rw [ih (fun x hx => h x (by simp [hx]))]

theorem decode_encodeBlock (B : ByteOrder) (blk : InterfaceDescriptionBlock)
    (h : WFblock blk) (rest : List Nat) :
    InterfaceDescriptionBlock.from_slice B (encodeBlock B blk ++ rest) =
      .ok (blk, rest) := by
  obtain ⟨hlt, hcan, hsnap, hopts⟩ := h
  have hl2 : (encodeU B 2 blk.linktype.toU32).length = 2 := length_encodeU B 2 _
  have hl4 : (encodeU B 4 blk.snaplen).length = 4 := length_encodeU B 4 _
  set s := encodeBlock B blk ++ rest with hs
  have hsplit : s = encodeU B 2 blk.linktype.toU32 ++
      (encodeU B 4 blk.snaplen ++ (encodeOptions B blk.options ++ rest)) := by
    rw [hs, encodeBlock, List.append_assoc, List.append_assoc]
  have hslen : ¬ s.length < 6 := by
    rw [hsplit]
    simp [hl2, hl4]
    omega
  have htake2 : s.take 2 = encodeU B 2 blk.linktype.toU32 := by
    rw [hsplit]; exact List.take_left' hl2
  have hdrop2 : s.drop 2 = encodeU B 4 blk.snaplen ++ (encodeOptions B blk.options ++ rest) := by
    rw [hsplit]; exact List.drop_left' hl2
  have htake4 : (s.drop 2).take 4 = encodeU B 4 blk.snaplen := by
    rw [hdrop2]; exact List.take_left' hl4
  have hdrop4 : (s.drop 2).drop 4 = encodeOptions B blk.options ++ rest := by
    rw [hdrop2]; exact List.drop_left' hl4
  have hc2 : ¬ s.length < 2 := by omega
  have hc4 : ¬ (encodeU B 4 blk.snaplen ++ (encodeOptions B blk.options ++ rest)).length < 4 := by
    simp [hl4]
  rw [InterfaceDescriptionBlock.from_slice, if_neg hslen]
  simp only [read_u16, read_u32, readExact, if_neg hc2, if_neg hc4, htake2, htake4,
    hdrop2, hdrop4, val_encodeU B 2 _ hlt, val_encodeU B 4 _ hsnap,
    List.take_left' hl4, List.drop_left' hl4,
    InterfaceDescriptionOption.from_slice, decode_encodeOptions B blk.options hopts rest,
    hcan]

/-! ### Well-formedness of decoded option values -/

theorem val_take_lt (B : ByteOrder) (p : List Nat) (k : Nat)
    (hp : ∀ b ∈ p, b < 256) (hk : k ≤ p.length) :
    B.val (p.take k) < 256 ^ k := by
  have hmem : ∀ b ∈ p.take k, b < 256 := fun b hb => hp b (List.take_subset k p hb)
  have := val_lt_of_bytes B (p.take k) hmem
  rwa [List.length_take, Nat.min_eq_left hk] at this

theorem interpret_wf (B : ByteOrder) (p : List Nat) (t L : Nat)
    (o : InterfaceDescriptionOption)
    (hp : ∀ b ∈ p, b < 256) (hlen : p.length < 256 ^ 2)
    (h : interpretIDOption B p t L = .ok o) : WFopt o := by
  unfold interpretIDOption at h
  split at h
  all_goals first
  | (rw [ite_eq_iff] at h
     rcases h with ⟨hv, h⟩ | ⟨_, h⟩
     · injection h with h
       subst h
       exact ⟨hv, hlen⟩
     · exact absurd h (by simp))
  | (rw [read_u64, readExact] at h
     by_cases hc : p.length < 8
     · simp [if_pos hc] at h
     · simp only [if_neg hc] at h
       injection h with h
       subst h
       simpa [WFopt] using val_take_lt B p 8 hp (by omega))
  | (rw [read_u32, readExact] at h
     by_cases hc : p.length < 4
     · simp [if_pos hc] at h
     · simp only [if_neg hc] at h
       injection h with h
       subst h
       simpa [WFopt] using val_take_lt B p 4 hp (by omega))
  | (cases p with
     | nil => exact absurd h (by simp [read_u8])
     | cons b rest =>
       rw [read_u8] at h
       injection h with h
       subst h
       exact hp b (by simp))
  | (injection h with h
     subst h
     exact hlen)
  | (exact absurd h (by simp))

theorem opts_from_slice_wf_aux (B : ByteOrder) :
    ∀ n (s : List Nat), s.length ≤ n → (∀ b ∈ s, b < 256) →
    ∀ os rem, opts_from_slice B (interpretIDOption B) s = .ok (os, rem) →
    ∀ o ∈ os, WFopt o := by
  intro n
  induction n with
  | zero =>
    intro s hn hb os rem h o ho
    have hs : s = [] := List.eq_nil_of_length_eq_zero (by omega)
    subst hs
    unfold opts_from_slice at h
    simp at h
    obtain ⟨h1, -⟩ := h
    subst h1
    simp at ho
  | succ n ih =>
    intro s hn hb os rem h o ho
    unfold opts_from_slice at h
    by_cases he : s.isEmpty
    · rw [dif_pos he] at h
      simp at h
      obtain ⟨h1, -⟩ := h
      subst h1
      simp at ho
    · rw [dif_neg he] at h
      by_cases h4 : s.length < 4
      · rw [dif_pos h4] at h
        exact absurd h (by simp)
      · rw [dif_neg h4] at h
        by_cases ht0 : B.val (s.take 2) = 0
        · rw [if_pos ht0] at h
          simp at h
          obtain ⟨h1, -⟩ := h
          subst h1
          simp at ho
        · rw [if_neg ht0] at h
          by_cases hlt : (s.drop 4).length < B.val ((s.drop 2).take 2)
          · rw [if_pos hlt] at h
            exact absurd h (by simp)
          · rw [if_neg hlt] at h
            rcases hint : interpretIDOption B ((s.drop 4).take (B.val ((s.drop 2).take 2)))
                (B.val (s.take 2)) (B.val ((s.drop 2).take 2)) with e | o'
            · rw [hint] at h
              simp at h
            · rw [hint] at h
              rcases hrec : opts_from_slice B (interpretIDOption B)
                  ((s.drop 4).drop (B.val ((s.drop 2).take 2) +
                    (4 - B.val ((s.drop 2).take 2) % 4) % 4)) with e | pr
              · rw [hrec] at h
                simp at h
              · obtain ⟨os', rem'⟩ := pr
                rw [hrec] at h
                simp at h
                obtain ⟨h1, -⟩ := h
                subst h1
                have hplen : ((s.drop 4).take (B.val ((s.drop 2).take 2))).length
                    = B.val ((s.drop 2).take 2) := by
                  rw [List.length_take]
                  omega
                rcases List.mem_cons.mp ho with hoo | hoo
                · subst hoo
                  refine interpret_wf B _ _ _ o ?_ ?_ hint
                  · intro b hbmem
                    exact hb b (List.drop_subset 4 s (List.take_subset _ _ hbmem))
                  · rw [hplen]
                    refine val_take_lt B (s.drop 2) 2 ?_ ?_
                    · intro b hbmem
                      exact hb b (List.drop_subset 2 s hbmem)
                    · rw [List.length_drop]
                      omega
                · refine ih _ ?_ ?_ os' rem' hrec o hoo
                  · simp only [List.length_drop]
                    omega
                  · intro b hbmem
                    exact hb b (List.drop_subset 4 s (List.drop_subset _ _ hbmem))

theorem opts_from_slice_wf (B : ByteOrder) (s : List Nat)
    (hb : ∀ b ∈ s, b < 256) (os : List InterfaceDescriptionOption) (rem : List Nat)
    (h : opts_from_slice B (interpretIDOption B) s = .ok (os, rem)) :
    ∀ o ∈ os, WFopt o :=
  opts_from_slice_wf_aux B s.length s le_rfl hb os rem h

/-! ### Head-record behaviour of the option scanner -/

theorem not_isEmpty_of_four_le (s : List Nat) (h4 : ¬ s.length < 4) :
    ¬ s.isEmpty = true := by
  rw [List.isEmpty_iff]
  intro hnil
  rw [hnil] at h4
  simp at h4

theorem opts_head_incomplete {O : Type} (B : ByteOrder)
    (f : List Nat → Nat → Nat → Except PcapError O) (s : List Nat)
    (h4 : ¬ s.length < 4) (ht0 : B.val (s.take 2) ≠ 0)
    (hlt : (s.drop 4).length < B.val ((s.drop 2).take 2)) :
    opts_from_slice B f s =
      .error (.IncompleteBuffer (B.val ((s.drop 2).take 2) - (s.drop 4).length)) := by
  unfold opts_from_slice
  rw [dif_neg (not_isEmpty_of_four_le s h4), dif_neg h4, if_neg ht0, if_pos hlt]

theorem opts_head_interp_error {O : Type} (B : ByteOrder)
    (f : List Nat → Nat → Nat → Except PcapError O) (s : List Nat) (e : PcapError)
    (h4 : ¬ s.length < 4) (ht0 : B.val (s.take 2) ≠ 0)
    (hge : ¬ (s.drop 4).length < B.val ((s.drop 2).take 2))
    (herr : f ((s.drop 4).take (B.val ((s.drop 2).take 2))) (B.val (s.take 2))
      (B.val ((s.drop 2).take 2)) = .error e) :
    opts_from_slice B f s = .error e := by
  unfold opts_from_slice
  rw [dif_neg (not_isEmpty_of_four_le s h4), dif_neg h4, if_neg ht0, if_neg hge, herr]

theorem interpret_unknown_code (B : ByteOrder) (p : List Nat) (t L : Nat)
    (h : 16 ≤ t) :
    interpretIDOption B p t L =
      .error (.InvalidField "InterfaceDescriptionOption type invalid") := by
  unfold interpretIDOption
  split
  all_goals first | omega | rfl

theorem interpret_invalid_utf8 (B : ByteOrder) (p : List Nat) (t L : Nat)
    (ht : t = 1 ∨ t = 2 ∨ t = 3 ∨ t = 12 ∨ t = 15)
    (hu : validUtf8 p = false) :
    interpretIDOption B p t L = .error (.InvalidField "invalid UTF-8 string") := by
  rcases ht with h | h | h | h | h <;> subst h <;> simp [interpretIDOption, hu]

theorem from_slice_linktype (B : ByteOrder) (s : List Nat)
    (blk : InterfaceDescriptionBlock) (rem : List Nat)
    (h : InterfaceDescriptionBlock.from_slice B s = .ok (blk, rem)) :
    blk.linktype = DataLink.fromU32 (B.val (s.take 2)) := by
  unfold InterfaceDescriptionBlock.from_slice at h
  by_cases h6 : s.length < 6
  · rw [if_pos h6] at h
    exact absurd h (by simp)
  · rw [if_neg h6] at h
    rw [read_u16, readExact, if_neg (by omega)] at h
    simp only [] at h
    rcases h32 : read_u32 B (s.drop 2) with e | pr
    · rw [h32] at h
      simp at h
    · obtain ⟨sn, s2⟩ := pr
      rw [h32] at h
      simp only [] at h
      rcases hopt : InterfaceDescriptionOption.from_slice B s2 with e | pr2
      · rw [hopt] at h
        simp at h
      · obtain ⟨os, s3⟩ := pr2
        rw [hopt] at h
        simp at h
        obtain ⟨h1, -⟩ := h
        rw [← h1]


/-- C1: for every input slice whose length `L` is less than 6,
`InterfaceDescriptionBlock::from_slice` fails with `IncompleteBuffer(6 - L)`
and no partial record is returned. -/
theorem claim1_short_buffer_incomplete (B : ByteOrder) (slice : List Nat)
    (h : slice.length < 6) :
    InterfaceDescriptionBlock.from_slice B slice =
      .error (.IncompleteBuffer (6 - slice.length)) := by
  rw [InterfaceDescriptionBlock.from_slice, if_pos h]

/-- Witness for C1: the 2-byte slice `[0, 0]` fails with `IncompleteBuffer 4`. -/
theorem claim1_short_buffer_incomplete_witness :
    InterfaceDescriptionBlock.from_slice .Big [0, 0] =
      .error (.IncompleteBuffer 4) ∧ ([0, 0] : List Nat).length < 6 :=
  ⟨claim1_short_buffer_incomplete .Big [0, 0] (by decide), by decide⟩

/-- C2: the minimal valid block (2-byte link type 0x0001, 4-byte snaplen 0,
then an all-zero end-of-options terminator) decodes to Ethernet, snaplen 0,
no options and an empty remaining slice, in either byte order with the link
type serialized accordingly. -/
theorem claim2_minimal_block :
    InterfaceDescriptionBlock.from_slice .Big [0x00, 0x01, 0, 0, 0, 0, 0, 0, 0, 0] =
      .ok ({ linktype := .ETHERNET, snaplen := 0, options := [] }, []) ∧
    InterfaceDescriptionBlock.from_slice .Little [0x01, 0x00, 0, 0, 0, 0, 0, 0, 0, 0] =
      .ok ({ linktype := .ETHERNET, snaplen := 0, options := [] }, []) := by
  constructor <;>
    simp [InterfaceDescriptionBlock.from_slice, read_u16, read_u32, readExact,
      InterfaceDescriptionOption.from_slice, opts_from_slice, ByteOrder.val, leVal,
      DataLink.fromU32]

/-- C3: an option record whose declared 2-byte length claims more payload
bytes than remain makes option decoding fail with `IncompleteBuffer` carrying
the exact missing-byte count, and never with `InvalidField`. -/
theorem claim3_overlong_option_incomplete (B : ByteOrder) (s : List Nat)
    (h4 : ¬ s.length < 4) (ht0 : B.val (s.take 2) ≠ 0)
    (hlt : (s.drop 4).length < B.val ((s.drop 2).take 2)) :
    InterfaceDescriptionOption.from_slice B s =
      .error (.IncompleteBuffer (B.val ((s.drop 2).take 2) - (s.drop 4).length)) ∧
    ∀ d, InterfaceDescriptionOption.from_slice B s ≠ .error (.InvalidField d) := by
  unfold InterfaceDescriptionOption.from_slice
  have hmain := opts_head_incomplete B (interpretIDOption B) s h4 ht0 hlt
  exact ⟨hmain, fun d hc => by rw [hmain] at hc; simp at hc⟩

/-- Witness for C3: a record declaring 10 payload bytes with none remaining
fails with `IncompleteBuffer 10`, not `InvalidField`. -/
theorem claim3_overlong_option_incomplete_witness :
    InterfaceDescriptionOption.from_slice .Big [0, 1, 0, 10] =
      .error (.IncompleteBuffer 10) ∧
    ∀ d, InterfaceDescriptionOption.from_slice .Big [0, 1, 0, 10] ≠
      .error (.InvalidField d) :=
  claim3_overlong_option_incomplete .Big [0, 1, 0, 10] (by decide) (by decide) (by decide)

/-- C4: an option whose type code is neither 0 nor in 1..15 makes decoding
fail with the `InvalidField` error naming the interface-description option
type, whatever the (present) payload's declared length, and never with
`IncompleteBuffer`. -/
theorem claim4_unknown_option_type_invalid (B : ByteOrder) (s : List Nat)
    (h4 : ¬ s.length < 4)
    (ht0 : B.val (s.take 2) ≠ 0)
    (htr : ¬ (1 ≤ B.val (s.take 2) ∧ B.val (s.take 2) ≤ 15))
    (hge : ¬ (s.drop 4).length < B.val ((s.drop 2).take 2)) :
    InterfaceDescriptionOption.from_slice B s =
      .error (.InvalidField "InterfaceDescriptionOption type invalid") ∧
    ∀ k, InterfaceDescriptionOption.from_slice B s ≠ .error (.IncompleteBuffer k) := by
  unfold InterfaceDescriptionOption.from_slice
  have h16 : 16 ≤ B.val (s.take 2) := by omega
  have hmain := opts_head_interp_error B (interpretIDOption B) s _ h4 ht0 hge
    (interpret_unknown_code B _ _ _ h16)
  exact ⟨hmain, fun k hc => by rw [hmain] at hc; simp at hc⟩

/-- Witness for C4: type code 99 with an empty payload fails with the
`InvalidField` option-type error. -/
theorem claim4_unknown_option_type_invalid_witness :
    InterfaceDescriptionOption.from_slice .Big [0, 99, 0, 0] =
      .error (.InvalidField "InterfaceDescriptionOption type invalid") ∧
    ∀ k, InterfaceDescriptionOption.from_slice .Big [0, 99, 0, 0] ≠
      .error (.IncompleteBuffer k) :=
  claim4_unknown_option_type_invalid .Big [0, 99, 0, 0] (by decide) (by decide)
    (by decide) (by decide)

/-- C5: a string-typed option (codes 1, 2, 3, 12, 15) whose (present) payload
is not valid UTF-8 makes the decode fail with a fatal `InvalidField` error,
never an `IncompleteBuffer`; no lossy value is produced. -/
theorem claim5_invalid_utf8_fatal (B : ByteOrder) (s : List Nat)
    (h4 : ¬ s.length < 4)
    (ht : B.val (s.take 2) = 1 ∨ B.val (s.take 2) = 2 ∨ B.val (s.take 2) = 3 ∨
      B.val (s.take 2) = 12 ∨ B.val (s.take 2) = 15)
    (hge : ¬ (s.drop 4).length < B.val ((s.drop 2).take 2))
    (hu : validUtf8 ((s.drop 4).take (B.val ((s.drop 2).take 2))) = false) :
    InterfaceDescriptionOption.from_slice B s =
      .error (.InvalidField "invalid UTF-8 string") ∧
    ∀ k, InterfaceDescriptionOption.from_slice B s ≠ .error (.IncompleteBuffer k) := by
  unfold InterfaceDescriptionOption.from_slice
  have ht0 : B.val (s.take 2) ≠ 0 := by rcases ht with h | h | h | h | h <;> omega
  have hmain := opts_head_interp_error B (interpretIDOption B) s _ h4 ht0 hge
    (interpret_invalid_utf8 B _ _ _ ht hu)
  exact ⟨hmain, fun k hc => by rw [hmain] at hc; simp at hc⟩

/-- Witness for C5: a comment option whose 1-byte payload is the invalid
UTF-8 byte 0xFF fails fatally. -/
theorem claim5_invalid_utf8_fatal_witness :
    InterfaceDescriptionOption.from_slice .Big [0, 1, 0, 1, 0xFF, 0, 0, 0] =
      .error (.InvalidField "invalid UTF-8 string") ∧
    ∀ k, InterfaceDescriptionOption.from_slice .Big [0, 1, 0, 1, 0xFF, 0, 0, 0] ≠
      .error (.IncompleteBuffer k) :=
  claim5_invalid_utf8_fatal .Big [0, 1, 0, 1, 0xFF, 0, 0, 0] (by decide)
    (by decide) (by decide) (by decide)


/-- C6 counterexample: an option record with integer type code 7 and a
zero-length payload does not decode to an empty/default value; the whole
decode fails with the truncated-integer-read error. -/
theorem claim6_zero_length_counterexample :
    InterfaceDescriptionOption.from_slice .Big [0, 7, 0, 0] =
      .error (.InvalidField "truncated integer read") := by
  simp [InterfaceDescriptionOption.from_slice, opts_from_slice, interpretIDOption,
    read_u64, readExact, ByteOrder.val, leVal]

/-- C6 amended: a zero-length payload decodes to an empty value for the
string codes (1, 2, 3, 12, 15) and the raw-byte codes (4, 5, 6, 11), but the
fixed-width integer codes (7, 8, 9, 10, 13, 14) fail on it with the
truncated-integer-read error. -/
theorem claim6_zero_length_amended (B : ByteOrder) :
    interpretIDOption B [] 1 0 = .ok (.Comment []) ∧
    interpretIDOption B [] 2 0 = .ok (.IfName []) ∧
    interpretIDOption B [] 3 0 = .ok (.IfDescription []) ∧
    interpretIDOption B [] 4 0 = .ok (.IfIpv4Addr []) ∧
    interpretIDOption B [] 5 0 = .ok (.IfIpv6Addr []) ∧
    interpretIDOption B [] 6 0 = .ok (.IfMacAddr []) ∧
    interpretIDOption B [] 11 0 = .ok (.IfFilter []) ∧
    interpretIDOption B [] 12 0 = .ok (.IfOs []) ∧
    interpretIDOption B [] 15 0 = .ok (.IfHardware []) ∧
    interpretIDOption B [] 7 0 = .error (.InvalidField "truncated integer read") ∧
    interpretIDOption B [] 8 0 = .error (.InvalidField "truncated integer read") ∧
    interpretIDOption B [] 9 0 = .error (.InvalidField "truncated integer read") ∧
    interpretIDOption B [] 10 0 = .error (.InvalidField "truncated integer read") ∧
    interpretIDOption B [] 13 0 = .error (.InvalidField "truncated integer read") ∧
    interpretIDOption B [] 14 0 = .error (.InvalidField "truncated integer read") :=
  ⟨rfl, rfl, rfl, rfl, rfl, rfl, rfl, rfl, rfl, rfl, rfl, rfl, rfl, rfl, rfl⟩

/-- C7: a successful block decode maps the leading 16-bit value through the
registry (`DataLink.fromU32`) into the record's `linktype`, and every number
without a registry entry maps to `Unknown(n)` carrying the original number. -/
theorem claim7_linktype_registry (B : ByteOrder) (s : List Nat)
    (blk : InterfaceDescriptionBlock) (rem : List Nat)
    (h : InterfaceDescriptionBlock.from_slice B s = .ok (blk, rem))
    (n : Nat) (hn : n ≠ 1) :
    blk.linktype = DataLink.fromU32 (B.val (s.take 2)) ∧
    DataLink.fromU32 n = .Unknown n :=
  ⟨from_slice_linktype B s blk rem h, by simp [DataLink.fromU32, hn]⟩

/-- Witness for C7: a block whose link-type field holds 99 (not in the
modelled registry) decodes to `Unknown 99`. -/
theorem claim7_linktype_registry_witness :
    (({ linktype := .Unknown 99, snaplen := 0, options := [] } :
        InterfaceDescriptionBlock)).linktype =
      DataLink.fromU32 (ByteOrder.Big.val (([0, 99, 0, 0, 0, 0, 0, 0, 0, 0] :
        List Nat).take 2)) ∧
    DataLink.fromU32 99 = .Unknown 99 :=
  claim7_linktype_registry .Big [0, 99, 0, 0, 0, 0, 0, 0, 0, 0]
    { linktype := .Unknown 99, snaplen := 0, options := [] } []
    (by simp [InterfaceDescriptionBlock.from_slice, read_u16, read_u32, readExact,
      InterfaceDescriptionOption.from_slice, opts_from_slice, ByteOrder.val, leVal,
      DataLink.fromU32])
    99 (by decide)


/-- C8: for two consecutive canonically encoded valid blocks in one buffer,
decoding the first returns the first block together with a remaining slice
whose length is the total length minus the first block's total encoded size
(header + options + terminator + padding), and decoding that remainder
yields the second block. -/
theorem claim8_two_consecutive_blocks (B : ByteOrder)
    (blk1 blk2 : InterfaceDescriptionBlock)
    (h1 : WFblock blk1) (h2 : WFblock blk2) :
    InterfaceDescriptionBlock.from_slice B (encodeBlock B blk1 ++ encodeBlock B blk2) =
      .ok (blk1, encodeBlock B blk2) ∧
    (encodeBlock B blk2).length =
      (encodeBlock B blk1 ++ encodeBlock B blk2).length - (encodeBlock B blk1).length ∧
    InterfaceDescriptionBlock.from_slice B (encodeBlock B blk2) = .ok (blk2, []) := by
  refine ⟨decode_encodeBlock B blk1 h1 _, by simp, ?_⟩
  have := decode_encodeBlock B blk2 h2 []
  simpa using this

/-- Witness for C8: an Ethernet block with no options followed by an
`Unknown 0` block carrying a timestamp-resolution option. -/
theorem claim8_two_consecutive_blocks_witness :
    InterfaceDescriptionBlock.from_slice .Big
      (encodeBlock .Big ⟨.ETHERNET, 0, []⟩ ++
        encodeBlock .Big ⟨.Unknown 0, 5, [.IfTsResol 6]⟩) =
      .ok (⟨.ETHERNET, 0, []⟩, encodeBlock .Big ⟨.Unknown 0, 5, [.IfTsResol 6]⟩) ∧
    (encodeBlock .Big ⟨.Unknown 0, 5, [.IfTsResol 6]⟩).length =
      (encodeBlock .Big ⟨.ETHERNET, 0, []⟩ ++
        encodeBlock .Big ⟨.Unknown 0, 5, [.IfTsResol 6]⟩).length -
      (encodeBlock .Big ⟨.ETHERNET, 0, []⟩).length ∧
    InterfaceDescriptionBlock.from_slice .Big
      (encodeBlock .Big ⟨.Unknown 0, 5, [.IfTsResol 6]⟩) =
      .ok (⟨.Unknown 0, 5, [.IfTsResol 6]⟩, []) :=
  claim8_two_consecutive_blocks .Big ⟨.ETHERNET, 0, []⟩ ⟨.Unknown 0, 5, [.IfTsResol 6]⟩
    (by simp [WFblock, WFopt, DataLink.toU32, DataLink.fromU32])
    (by simp [WFblock, WFopt, DataLink.toU32, DataLink.fromU32])

/-- C9: decoding a valid option sequence, re-encoding the decoded list with
the canonical encoder and decoding again yields the identical option list in
the same order. -/
theorem claim9_roundtrip (B : ByteOrder) (s : List Nat) (hb : ∀ b ∈ s, b < 256)
    (os : List InterfaceDescriptionOption) (rem : List Nat)
    (h : InterfaceDescriptionOption.from_slice B s = .ok (os, rem)) :
    InterfaceDescriptionOption.from_slice B (encodeOptions B os) = .ok (os, []) := by
  unfold InterfaceDescriptionOption.from_slice at h ⊢
  have hwf := opts_from_slice_wf B s hb os rem h
  have := decode_encodeOptions B os hwf []
  simpa using this

/-- Witness for C9: the timestamp-resolution option round-trips. -/
theorem claim9_roundtrip_witness :
    InterfaceDescriptionOption.from_slice .Big
      (encodeOptions .Big [.IfTsResol 6]) = .ok ([.IfTsResol 6], []) :=
  claim9_roundtrip .Big [0, 9, 0, 1, 6, 0, 0, 0, 0, 0, 0, 0] (by decide)
    [.IfTsResol 6] []
    (by simp [InterfaceDescriptionOption.from_slice, opts_from_slice,
      interpretIDOption, read_u8, ByteOrder.val, leVal])

/-- C10: the interpreter never checks the declared length against the
option's semantic size: fixed-width integer options decode only the leading
width bytes of any sufficiently long payload, ignoring the excess, and
raw-byte options accept and borrow a payload of any length. -/
theorem claim10_no_semantic_length_validation (B : ByteOrder) (p : List Nat)
    (L : Nat) :
    (8 ≤ p.length → interpretIDOption B p 7 L = .ok (.IfEulAddr (B.val (p.take 8)))) ∧
    (8 ≤ p.length → interpretIDOption B p 8 L = .ok (.IfSpeed (B.val (p.take 8)))) ∧
    (1 ≤ p.length → interpretIDOption B p 9 L = .ok (.IfTsResol p.headI)) ∧
    (4 ≤ p.length → interpretIDOption B p 10 L = .ok (.IfTzone (B.val (p.take 4)))) ∧
    (1 ≤ p.length → interpretIDOption B p 13 L = .ok (.IfFcsLen p.headI)) ∧
    (8 ≤ p.length → interpretIDOption B p 14 L = .ok (.IfTsOffset (B.val (p.take 8)))) ∧
    interpretIDOption B p 4 L = .ok (.IfIpv4Addr p) ∧
    interpretIDOption B p 5 L = .ok (.IfIpv6Addr p) ∧
    interpretIDOption B p 6 L = .ok (.IfMacAddr p) ∧
    interpretIDOption B p 11 L = .ok (.IfFilter p) := by
  refine ⟨?_, ?_, ?_, ?_, ?_, ?_, rfl, rfl, rfl, rfl⟩
  · intro hp
    simp [interpretIDOption, read_u64, readExact, Nat.not_lt.mpr hp]
  · intro hp
    simp [interpretIDOption, read_u64, readExact, Nat.not_lt.mpr hp]
  · intro hp
    cases p with
    | nil => simp at hp
    | cons b r => simp [interpretIDOption, read_u8]
  · intro hp
    simp [interpretIDOption, read_u32, readExact, Nat.not_lt.mpr hp]
  · intro hp
    cases p with
    | nil => simp at hp
    | cons b r => simp [interpretIDOption, read_u8]
  · intro hp
    simp [interpretIDOption, read_u64, readExact, Nat.not_lt.mpr hp]

/-- Witness for C10: a 9-byte payload for the 8-byte EUI option decodes its
first 8 bytes and a 9-byte MAC-address payload is borrowed in full. -/
theorem claim10_no_semantic_length_validation_witness :
    interpretIDOption .Big [1, 2, 3, 4, 5, 6, 7, 8, 9] 7 2 =
      .ok (.IfEulAddr (ByteOrder.Big.val (([1, 2, 3, 4, 5, 6, 7, 8, 9] :
        List Nat).take 8))) ∧
    interpretIDOption .Big [1, 2, 3, 4, 5, 6, 7, 8, 9] 6 2 =
      .ok (.IfMacAddr [1, 2, 3, 4, 5, 6, 7, 8, 9]) :=
  ⟨(claim10_no_semantic_length_validation .Big [1, 2, 3, 4, 5, 6, 7, 8, 9] 2).1
      (by decide),
    (claim10_no_semantic_length_validation .Big
      [1, 2, 3, 4, 5, 6, 7, 8, 9] 2).2.2.2.2.2.2.2.2.1⟩

end PcapFile
